import Mathlib

/-!
Shallow embedding of `src/node-harness/gpu-sidecar/src/main.rs` (a wgpu GPU
sidecar: a smoke-test kernel and a stable-fluids pipeline) and proofs about
the claims of its specification.

Modelling conventions:
* `f32`/`f64` arithmetic is idealised as exact `ℚ` arithmetic; transcendental
  functions (`exp`, `sqrt`/`length`) that have no exact rational counterpart
  are passed as explicit function parameters, so every statement holds for the
  actual floating-point functions as well as for any other instantiation.
* GPU storage buffers are modelled by name (`Buf`), the command encoder of
  `run_fluid_step` by a `List Cmd`, and dispatch semantics by a store
  interpreter `exec` that is generic in the per-field kernel functions
  (`Kernels F`); the dataflow claims are proved for every instantiation of
  those kernels, hence in particular for the real WGSL ones.
* In every `Dispatch`, binding 0 (the uniform `Params` block) is omitted:
  in the source it is always the same immutable `params_buf`.
-/

namespace Sidecar

/-- Storage buffers allocated by `run_fluid_step` (lines 306-312 of main.rs):
`vel_a`, `vel_b`, `dye_a`, `dye_b`, `div`, `pressure_a`, `pressure_b`. -/
inductive Buf
| velA
| velB
| dyeA
| dyeB
| div
| pressureA
| pressureB
deriving DecidableEq, Repr

/-- A compute dispatch, identified by its pipeline and the storage buffers its
bind group attaches (bindings 1.. in source order; binding 0, the uniform
params, is constant and omitted). -/
inductive Dispatch
| fluidInit (vel dye : Buf)
| advectVel (src dst : Buf)
| divergence (vel out : Buf)
| jacobi (pIn divIn pOut : Buf)
| project (vel pressure outVel : Buf)
| advectDye (vel dyeSrc dyeDst : Buf)
| fade (src dst : Buf)
deriving DecidableEq, Repr

/-- A command recorded on the encoder: `clear_buffer` or a compute dispatch. -/
inductive Cmd
| clearBuffer (b : Buf)
| dispatch (d : Dispatch)
deriving DecidableEq, Repr

/-- Bind group `bg-init` (lines 348-356): init kernel writes `vel_a`, `dye_a`. -/
def bg_init : Dispatch := .fluidInit .velA .dyeA

/-- Bind group `bg-advect-vel` (lines 357-365): reads `vel_a`, writes `vel_b`. -/
def bg_advect_vel : Dispatch := .advectVel .velA .velB

/-- Bind group `bg-div` (lines 366-374): reads `vel_b`, writes `div`. -/
def bg_div : Dispatch := .divergence .velB .div

/-- Bind group `bg-jacobi-ab` (lines 375-384): reads `pressure_a` and `div`,
writes `pressure_b`. -/
def bg_jacobi_ab : Dispatch := .jacobi .pressureA .div .pressureB

/-- Bind group `bg-jacobi-ba` (lines 385-394): reads `pressure_b` and `div`,
writes `pressure_a`. -/
def bg_jacobi_ba : Dispatch := .jacobi .pressureB .div .pressureA

/-- Bind group `bg-project-from-a` (lines 395-404): reads `vel_b` and
`pressure_a`, writes `vel_a`. -/
def bg_project_from_a : Dispatch := .project .velB .pressureA .velA

/-- Bind group `bg-project-from-b` (lines 405-414): reads `vel_b` and
`pressure_b`, writes `vel_a`. -/
def bg_project_from_b : Dispatch := .project .velB .pressureB .velA

/-- Bind group `bg-advect-dye` (lines 415-424): reads `vel_a` and `dye_a`,
writes `dye_b`. -/
def bg_advect_dye : Dispatch := .advectDye .velA .dyeA .dyeB

/-- Bind group `bg-fade` (lines 425-433): reads `dye_b`, writes `dye_a`. -/
def bg_fade : Dispatch := .fade .dyeB .dyeA

/-- The two `clear_buffer` calls at the top of each step (lines 450-451). -/
def clearCmds : List Cmd := [.clearBuffer .pressureA, .clearBuffer .pressureB]

/-- The Jacobi loop `for i in 0..jacobi_iters` (lines 469-474): iteration `i`
uses `bg_jacobi_ab` when `i % 2 == 0`, else `bg_jacobi_ba`. -/
def jacobiCmds (n : ℕ) : List Cmd :=
  (List.range n).map (fun i => Cmd.dispatch (if i % 2 = 0 then bg_jacobi_ab else bg_jacobi_ba))

/-- One iteration of the `for _ in 0..steps` loop of `run_fluid_step`
(lines 446-501): clear both pressure buffers, advect velocity, divergence,
`jacobi_iters` Jacobi dispatches, projection (bind group chosen by the parity
of `jacobi_iters`, line 480), dye advection, fade. -/
def stepCommands (n : ℕ) : List Cmd :=
  clearCmds ++ [Cmd.dispatch bg_advect_vel, Cmd.dispatch bg_div]
    ++ jacobiCmds n
    ++ [Cmd.dispatch (if n % 2 = 0 then bg_project_from_a else bg_project_from_b),
        Cmd.dispatch bg_advect_dye, Cmd.dispatch bg_fade]

/-- The commands of the whole `for _ in 0..steps` loop, in submission order. -/
def repeatCmds : ℕ → List Cmd → List Cmd
| 0, _ => []
| k + 1, l => l ++ repeatCmds k l

/-- All commands recorded by the step loop of `run_fluid_step` for `steps`
steps with `jacobi_iters = n`. -/
def fluidStepCommands (steps n : ℕ) : List Cmd := repeatCmds steps (stepCommands n)

/-- The full `run_fluid_step` command stream: the one-time init dispatch
(lines 436-444) followed by the step loop. -/
def fluidProgram (steps n : ℕ) : List Cmd :=
  Cmd.dispatch bg_init :: fluidStepCommands steps n

/-- The buffers the final readback copies from (lines 505-506): `vel_a` for
velocity and `dye_a` for dye. -/
def readbackSources : Buf × Buf := (.velA, .dyeA)

/-- Per-field kernel semantics, generic in the field representation `F`.
`zero` is the contents of a buffer after `clear_buffer`; the remaining fields
are the whole-field functions computed by the seven WGSL kernels. -/
structure Kernels (F : Type) where
  zero : F
  initVel : F
  initDye : F
  advectVel : F → F
  divergence : F → F
  jacobi : F → F → F
  project : F → F → F
  advectDye : F → F → F
  fade : F → F

/-- A GPU store: contents of every storage buffer. -/
def Store (F : Type) : Type := Buf → F

/-- Overwrite one buffer of the store. -/
def Store.write {F : Type} (s : Store F) (b : Buf) (v : F) : Store F :=
  fun b2 => if b2 = b then v else s b2

/-- Semantics of one dispatch: read the bound input buffers, apply the
kernel's whole-field function, overwrite the bound output buffer. -/
def execDispatch {F : Type} (K : Kernels F) (d : Dispatch) (s : Store F) : Store F :=
  match d with
  | .fluidInit v dy => (s.write v K.initVel).write dy K.initDye
  | .advectVel src dst => s.write dst (K.advectVel (s src))
  | .divergence v o => s.write o (K.divergence (s v))
  | .jacobi pin dv pout => s.write pout (K.jacobi (s pin) (s dv))
  | .project v pr o => s.write o (K.project (s v) (s pr))
  | .advectDye v ds dd => s.write dd (K.advectDye (s v) (s ds))
  | .fade src dst => s.write dst (K.fade (s src))

/-- Semantics of one recorded command. -/
def execCmd {F : Type} (K : Kernels F) (s : Store F) (c : Cmd) : Store F :=
  match c with
  | .clearBuffer b => s.write b K.zero
  | .dispatch d => execDispatch K d s

/-- Execute a command list in order. -/
def exec {F : Type} (K : Kernels F) (cmds : List Cmd) (s : Store F) : Store F :=
  cmds.foldl (execCmd K) s

/-- Pressure after `n` Jacobi relaxation passes starting from the cleared
(zero) buffer, with right-hand side `d`. -/
def jacobiN {F : Type} (K : Kernels F) (d : F) : ℕ → F
| 0 => K.zero
| n + 1 => K.jacobi (jacobiN K d n) d

/-- Reference semantics of one fluid step on the (velocity, dye) pair, read
off §4.8 of the pipeline: advect velocity, divergence, `n` Jacobi passes from
zero pressure, project, advect dye, fade. -/
def refStep {F : Type} (K : Kernels F) (n : ℕ) (vd : F × F) : F × F :=
  let v1 := K.advectVel vd.1
  let dv := K.divergence v1
  let v2 := K.project v1 (jacobiN K dv n)
  (v2, K.fade (K.advectDye v2 vd.2))

/-- The exact store produced by one `stepCommands n` block, as a function of
the incoming current velocity `v` (in `vel_a`) and dye `d0` (in `dye_a`). -/
def stepStore {F : Type} (K : Kernels F) (n : ℕ) (v d0 : F) : Store F := fun b =>
  let v1 := K.advectVel v
  let dv := K.divergence v1
  let v2 := K.project v1 (jacobiN K dv n)
  match b with
  | .velA => v2
  | .velB => v1
  | .dyeA => K.fade (K.advectDye v2 d0)
  | .dyeB => K.advectDye v2 d0
  | .div => dv
  | .pressureA => jacobiN K dv (n - n % 2)
  | .pressureB => jacobiN K dv (n - (1 - n % 2))

theorem exec_append {F : Type} (K : Kernels F) (l1 l2 : List Cmd) (s : Store F) :
    exec K (l1 ++ l2) s = exec K l2 (exec K l1 s) := by
  simp [exec, List.foldl_append]

theorem store_write_same {F : Type} (s : Store F) (b : Buf) (v : F) :
    (s.write b v) b = v := by
  simp [Store.write]

theorem store_write_ne {F : Type} (s : Store F) (b b2 : Buf) (v : F) (h : b2 ≠ b) :
    (s.write b v) b2 = s b2 := by
  simp [Store.write, h]

/-- After `k` iterations of the Jacobi ping-pong loop started with both
pressure buffers cleared, `pressure_a` holds the `k - k % 2`-th iterate,
`pressure_b` the `k - (1 - k % 2)`-th, and every other buffer is untouched. -/
theorem exec_jacobiCmds {F : Type} (K : Kernels F) (s : Store F)
    (hA : s .pressureA = K.zero) (hB : s .pressureB = K.zero) (k : ℕ) :
    exec K (jacobiCmds k) s = fun b =>
      match b with
      | .pressureA => jacobiN K (s .div) (k - k % 2)
      | .pressureB => jacobiN K (s .div) (k - (1 - k % 2))
      | b => s b := by
  induction k with
  | zero =>
      funext b
      cases b <;> simp [jacobiCmds, exec, jacobiN, hA, hB]
  | succ k ih =>
      have hsplit : jacobiCmds (k + 1) = jacobiCmds k ++
          [Cmd.dispatch (if k % 2 = 0 then bg_jacobi_ab else bg_jacobi_ba)] := by
        simp [jacobiCmds, List.range_succ]
      rw [hsplit, exec_append, ih]
      funext b
      rcases Nat.even_or_odd k with he | ho
      · have hk2 : k % 2 = 0 := Nat.even_iff.mp he
        have h1 : k + 1 - (k + 1) % 2 = k - k % 2 := by omega
        have h2 : k + 1 - (1 - (k + 1) % 2) = k + 1 := by omega
        have h3 : k - k % 2 = k := by omega
        cases b <;>
          simp [exec, execCmd, execDispatch, hk2, bg_jacobi_ab, Store.write,
            h1, h2, h3, jacobiN]
      · have hk2 : k % 2 = 1 := Nat.odd_iff.mp ho
        have h1 : k + 1 - (k + 1) % 2 = k + 1 := by omega
        have h2 : k + 1 - (1 - (k + 1) % 2) = k - (1 - k % 2) := by omega
        have h3 : k - (1 - k % 2) = k := by omega
        cases b <;>
          simp [exec, execCmd, execDispatch, hk2, bg_jacobi_ba, Store.write,
            h1, h2, h3, jacobiN]

/-- One `stepCommands n` block turns any incoming store into
`stepStore K n (s vel_a) (s dye_a)`: in particular the result depends only on
the incoming contents of `vel_a` and `dye_a`. -/
theorem exec_stepCommands {F : Type} (K : Kernels F) (n : ℕ) (s : Store F) :
    exec K (stepCommands n) s = stepStore K n (s .velA) (s .dyeA) := by
  have hsplit : stepCommands n =
      (clearCmds ++ [Cmd.dispatch bg_advect_vel, Cmd.dispatch bg_div])
        ++ jacobiCmds n
        ++ [Cmd.dispatch (if n % 2 = 0 then bg_project_from_a else bg_project_from_b),
            Cmd.dispatch bg_advect_dye, Cmd.dispatch bg_fade] := by
    simp [stepCommands]
  rw [hsplit, exec_append, exec_append]
  set s4 : Store F := exec K (clearCmds ++ [Cmd.dispatch bg_advect_vel, Cmd.dispatch bg_div]) s with hs4
  have hs4eval : ∀ b, s4 b =
      match b with
      | .velA => s .velA
      | .velB => K.advectVel (s .velA)
      | .dyeA => s .dyeA
      | .dyeB => s .dyeB
      | .div => K.divergence (K.advectVel (s .velA))
      | .pressureA => K.zero
      | .pressureB => K.zero := by
    intro b
    cases b <;>
      simp [hs4, clearCmds, exec, execCmd, execDispatch, Store.write,
        bg_advect_vel, bg_div]
  have hjac := exec_jacobiCmds K s4 (hs4eval .pressureA) (hs4eval .pressureB) n
  rw [hjac]
  set dv := s4 .div with hdv
  have hdv2 : dv = K.divergence (K.advectVel (s .velA)) := hs4eval .div
  funext b
  rcases Nat.even_or_odd n with he | ho
  · have hn2 : n % 2 = 0 := Nat.even_iff.mp he
    have hA : n - n % 2 = n := by omega
    cases b <;>
      simp [exec, execCmd, execDispatch, hn2, bg_project_from_a, bg_advect_dye,
        bg_fade, Store.write, stepStore, hdv2, hA, hs4eval]
  · have hn2 : n % 2 = 1 := Nat.odd_iff.mp ho
    have hB : n - (1 - n % 2) = n := by omega
    cases b <;>
      simp [exec, execCmd, execDispatch, hn2, bg_project_from_b, bg_advect_dye,
        bg_fade, Store.write, stepStore, hdv2, hB, hs4eval]

/-- After `k + 1` full steps, the store is exactly `stepStore` applied to the
`k`-fold `refStep` iterate of the incoming (velocity, dye) pair. -/
theorem exec_fluidStepCommands_succ {F : Type} (K : Kernels F) (n : ℕ) :
    ∀ (k : ℕ) (s : Store F),
      exec K (fluidStepCommands (k + 1) n) s =
        stepStore K n ((refStep K n)^[k] (s .velA, s .dyeA)).1
          ((refStep K n)^[k] (s .velA, s .dyeA)).2 := by
  intro k
  induction k with
  | zero =>
      intro s
      have h1 : fluidStepCommands 1 n = stepCommands n := by
        simp [fluidStepCommands, repeatCmds]
      rw [h1, exec_stepCommands]
      simp
  | succ k ih =>
      intro s
      have hsplit : fluidStepCommands (k + 2) n =
          stepCommands n ++ fluidStepCommands (k + 1) n := by
        simp [fluidStepCommands, repeatCmds]
      rw [hsplit, exec_append, ih, exec_stepCommands]
      have hpair : ((stepStore K n (s .velA) (s .dyeA)) .velA,
          (stepStore K n (s .velA) (s .dyeA)) .dyeA) =
          refStep K n (s .velA, s .dyeA) := by
        simp [stepStore, refStep]
      rw [hpair, ← Function.iterate_succ_apply]

/-- The current velocity (`vel_a`) and dye (`dye_a`) after `steps` full step
blocks are the `steps`-fold `refStep` iterate of the incoming pair. -/
theorem exec_fluidStepCommands {F : Type} (K : Kernels F) (n steps : ℕ) (s : Store F) :
    (exec K (fluidStepCommands steps n) s) .velA =
        ((refStep K n)^[steps] (s .velA, s .dyeA)).1
    ∧ (exec K (fluidStepCommands steps n) s) .dyeA =
        ((refStep K n)^[steps] (s .velA, s .dyeA)).2 := by
  cases steps with
  | zero => simp [fluidStepCommands, repeatCmds, exec]
  | succ k =>
      rw [exec_fluidStepCommands_succ]
      constructor
      · show (stepStore K n _ _) .velA = _
        rw [Function.iterate_succ_apply' (refStep K n) k]
        simp [stepStore, refStep]
      · show (stepStore K n _ _) .dyeA = _
        rw [Function.iterate_succ_apply' (refStep K n) k]
        simp [stepStore, refStep]

/-- Executing the init dispatch seeds `vel_a` with the init kernel's velocity
field and `dye_a` with its dye field. -/
theorem exec_bg_init {F : Type} (K : Kernels F) (s : Store F) :
    (execDispatch K bg_init s) .velA = K.initVel
    ∧ (execDispatch K bg_init s) .dyeA = K.initDye := by
  constructor <;> simp [execDispatch, bg_init, Store.write]

/-- The velocity and dye read back by `run_fluid_step` are the `steps`-fold
`refStep` iterate of the init kernel's seed. -/
theorem exec_fluidProgram {F : Type} (K : Kernels F) (n steps : ℕ) (s : Store F) :
    (exec K (fluidProgram steps n) s) .velA =
        ((refStep K n)^[steps] (K.initVel, K.initDye)).1
    ∧ (exec K (fluidProgram steps n) s) .dyeA =
        ((refStep K n)^[steps] (K.initVel, K.initDye)).2 := by
  have hcons : fluidProgram steps n =
      [Cmd.dispatch bg_init] ++ fluidStepCommands steps n := by
    simp [fluidProgram]
  rw [hcons, exec_append]
  have h1 : exec K [Cmd.dispatch bg_init] s = execDispatch K bg_init s := by
    simp [exec, execCmd]
  rw [h1]
  have h2 := exec_fluidStepCommands K n steps (execDispatch K bg_init s)
  rw [(exec_bg_init K s).1, (exec_bg_init K s).2] at h2
  exact h2

/-- Dropping `k` whole step blocks from the loop's command stream leaves the
stream of the remaining `steps - k` blocks. -/
theorem fluidStepCommands_drop (n : ℕ) :
    ∀ (k steps : ℕ), k < steps →
      (fluidStepCommands steps n).drop (k * (stepCommands n).length) =
        fluidStepCommands (steps - k) n := by
  intro k
  induction k with
  | zero => intro steps _; simp
  | succ k ih =>
      intro steps hk
      cases steps with
      | zero => omega
      | succ m =>
          have hsplit : fluidStepCommands (m + 1) n =
              stepCommands n ++ fluidStepCommands m n := by
            simp [fluidStepCommands, repeatCmds]
          rw [hsplit]
          have hlen : (k + 1) * (stepCommands n).length =
              (stepCommands n).length + k * (stepCommands n).length := by ring
          rw [hlen, List.drop_append]
          have : m + 1 - (k + 1) = m - k := by omega
          rw [this]
          exact ih m (by omega)

/-! Concrete per-cell kernel arithmetic, over exact `ℚ` in place of `f32`.
Storage buffers are flat row-major arrays, as in the source. -/

/-- The WGSL helper `fn idx(x, y) -> u32 { return y * p.width + x; }`. -/
def idx (w x y : ℕ) : ℕ := y * w + x

/-- The WGSL helper `fn c(x: i32, maxv: u32) -> u32` =
`u32(clamp(x, 0, i32(maxv) - 1))`; WGSL `clamp(e, lo, hi) = min(max(e, lo), hi)`. -/
def cIdx (x : ℤ) (maxv : ℕ) : ℕ := (min (max x 0) ((maxv : ℤ) - 1)).toNat

theorem cIdx_self (x maxv : ℕ) (hx : x < maxv) : cIdx x maxv = x := by
  simp only [cIdx]; omega

theorem cIdx_sub_one (x maxv : ℕ) (hx : x < maxv) : cIdx ((x : ℤ) - 1) maxv = x - 1 := by
  simp only [cIdx]; omega

theorem cIdx_add_one (x maxv : ℕ) (hx : x < maxv) :
    cIdx ((x : ℤ) + 1) maxv = min (x + 1) (maxv - 1) := by
  simp only [cIdx]; omega

/-- Per-cell value written by the divergence kernel `FLUID_DIVERGENCE_WGSL`
(lines 882-892): central difference of the clamped neighbours,
`0.5 * ((vr - vl) + (vt - vb))`. -/
def kernelDivergence (w h : ℕ) (vel : ℕ → ℚ × ℚ) (gx gy : ℕ) : ℚ :=
  let x : ℤ := gx
  let y : ℤ := gy
  let vl := (vel (idx w (cIdx (x - 1) w) (cIdx y h))).1
  let vr := (vel (idx w (cIdx (x + 1) w) (cIdx y h))).1
  let vb := (vel (idx w (cIdx x w) (cIdx (y - 1) h))).2
  let vt := (vel (idx w (cIdx x w) (cIdx (y + 1) h))).2
  0.5 * ((vr - vl) + (vt - vb))

/-- Per-cell divergence recomputed by the host statistics loop of
`run_fluid_step` (lines 532-546): `saturating_sub`/`min`-clamped neighbour
indices into the flat `vel` readback, then `0.5 * ((vr - vl) + (vt - vb))`. -/
def hostDivergence (w h : ℕ) (vel : ℕ → ℚ × ℚ) (x y : ℕ) : ℚ :=
  let ym := y - 1
  let yp := min (y + 1) (h - 1)
  let xm := x - 1
  let xp := min (x + 1) (w - 1)
  let vl := (vel (y * w + xm)).1
  let vr := (vel (y * w + xp)).1
  let vb := (vel (ym * w + x)).2
  let vt := (vel (yp * w + x)).2
  0.5 * ((vr - vl) + (vt - vb))

/-- Per-cell value written by the projection kernel `FLUID_PROJECT_WGSL`
(lines 947-960): central-difference pressure gradient with clamped
neighbours, subtracted from the velocity, except that edge cells are written
as the zero vector (`select(vel - grad, vec2(0,0), edge)`). -/
def projectCell (w h : ℕ) (vel : ℕ → ℚ × ℚ) (pressure : ℕ → ℚ) (gx gy : ℕ) : ℚ × ℚ :=
  let x : ℤ := gx
  let y : ℤ := gy
  let pl := pressure (idx w (cIdx (x - 1) w) (cIdx y h))
  let pr := pressure (idx w (cIdx (x + 1) w) (cIdx y h))
  let pb := pressure (idx w (cIdx x w) (cIdx (y - 1) h))
  let pt := pressure (idx w (cIdx x w) (cIdx (y + 1) h))
  let grad : ℚ × ℚ := ((pr - pl) * 0.5, (pt - pb) * 0.5)
  if gx = 0 ∨ gy = 0 ∨ gx = w - 1 ∨ gy = h - 1 then (0, 0)
  else ((vel (idx w gx gy)).1 - grad.1, (vel (idx w gx gy)).2 - grad.2)

/-- Whole-field projection on flat buffers shared in the single store type
`ℕ → ℚ × ℚ`; the scalar pressure buffer is carried in the first component. -/
def projectField (w h : ℕ) (vel pressure : ℕ → ℚ × ℚ) : ℕ → ℚ × ℚ :=
  fun id => projectCell w h vel (fun j => (pressure j).1) (id % w) (id / w)

theorem projectCell_edge (w h : ℕ) (vel : ℕ → ℚ × ℚ) (pressure : ℕ → ℚ)
    (gx gy : ℕ) (hedge : gx = 0 ∨ gy = 0 ∨ gx = w - 1 ∨ gy = h - 1) :
    projectCell w h vel pressure gx gy = (0, 0) := by
  simp only [projectCell]
  rw [if_pos hedge]

/-- Per-cell velocity written by the init kernel `FLUID_INIT_WGSL`
(lines 785-795): `uv = ((gid + 0.5) / (w, h))`, `c = uv - 0.5`,
`r = length(c)`, `vel = vec2(-c.y, c.x) * impulse * exp(-30 * r * r)`.
The `f32` functions `exp` and `length`'s square root are abstracted as the
parameters `expF` and `sqrtF`. -/
def initVelCell (expF sqrtF : ℚ → ℚ) (w h : ℕ) (imp : ℚ) (gx gy : ℕ) : ℚ × ℚ :=
  let uvx := ((gx : ℚ) + 0.5) / (w : ℚ)
  let uvy := ((gy : ℚ) + 0.5) / (h : ℚ)
  let cx := uvx - 0.5
  let cy := uvy - 0.5
  let r := sqrtF (cx * cx + cy * cy)
  (-cy * imp * expF (-30 * r * r), cx * imp * expF (-30 * r * r))

/-- Per-cell dye written by the init kernel (line 794):
`select(0.0, 1.0 - r / max(dye_radius, 0.01), r <= dye_radius)`. -/
def initDyeCell (sqrtF : ℚ → ℚ) (w h : ℕ) (dr : ℚ) (gx gy : ℕ) : ℚ :=
  let uvx := ((gx : ℚ) + 0.5) / (w : ℚ)
  let uvy := ((gy : ℚ) + 0.5) / (h : ℚ)
  let cx := uvx - 0.5
  let cy := uvy - 0.5
  let r := sqrtF (cx * cx + cy * cy)
  if r ≤ dr then 1 - r / max dr 0.01 else 0

/-- Velocity seed as worded by §4.2 of the spec: tangential swirl
`(-c.y, c.x) * impulse * exp(-30 * r²)` at `c = uv - 0.5`, `r = |c|`. -/
def specInitVel (expF sqrtF : ℚ → ℚ) (w h : ℕ) (imp : ℚ) (gx gy : ℕ) : ℚ × ℚ :=
  let uv : ℚ × ℚ := (((gx : ℚ) + 0.5) / (w : ℚ), ((gy : ℚ) + 0.5) / (h : ℚ))
  let c : ℚ × ℚ := (uv.1 - 0.5, uv.2 - 0.5)
  let r := sqrtF (c.1 ^ 2 + c.2 ^ 2)
  let scale := imp * expF (-(30 * r ^ 2))
  (-c.2 * scale, c.1 * scale)

/-- Dye seed as worded by §4.2 of the spec: `1 - r / max(dye_radius, 0.01)`
if `r ≤ dye_radius`, else 0. -/
def specInitDye (sqrtF : ℚ → ℚ) (w h : ℕ) (dr : ℚ) (gx gy : ℕ) : ℚ :=
  let uv : ℚ × ℚ := (((gx : ℚ) + 0.5) / (w : ℚ), ((gy : ℚ) + 0.5) / (h : ℚ))
  let c : ℚ × ℚ := (uv.1 - 0.5, uv.2 - 0.5)
  let r := sqrtF (c.1 ^ 2 + c.2 ^ 2)
  if r ≤ dr then 1 - r / max dr 0.01 else 0

/-- The whole init field (velocity and dye for every cell) as one function of
the request parameters; used to state determinism. -/
def initField (expF sqrtF : ℚ → ℚ) (w h : ℕ) (dr imp : ℚ) : ℕ → ℕ → (ℚ × ℚ) × ℚ :=
  fun gx gy => (initVelCell expF sqrtF w h imp gx gy, initDyeCell sqrtF w h dr gx gy)

/-! Request dispatch and parameter clamping (`run`, lines 113-175). -/

/-- The deserialized `Request` enum (lines 6-35). -/
inductive Request
| smoke (n : ℕ)
| smokeSweep (sizes : List ℕ)
| fluidInit (width height : ℕ) (dye_radius impulse : ℚ)
| fluidStep (width height steps : ℕ) (dt fade : ℚ) (jacobi_iters : ℕ)
    (dye_radius impulse : ℚ)
deriving DecidableEq, Repr

/-- A call `run` makes into one of the three runners, with the exact argument
values passed at the call site. -/
inductive RunnerCall
| smokeRun (n : ℕ)
| fluidInitRun (width height : ℕ) (dye_radius impulse : ℚ)
| fluidStepRun (width height steps : ℕ) (dt fade : ℚ) (jacobi_iters : ℕ)
    (dye_radius impulse : ℚ)
deriving DecidableEq, Repr

/-- Rust `f32::clamp(self, min, max)` on non-NaN input:
`if self < min { min } else if self > max { max } else { self }`. -/
def rustClampQ (x lo hi : ℚ) : ℚ := if x < lo then lo else if x > hi then hi else x

/-- Rust `Ord::clamp` for `u32`, same branch structure. -/
def rustClampN (x lo hi : ℕ) : ℕ := if x < lo then lo else if x > hi then hi else x

/-- The fallback size list of `smoke_sweep` (line 128). -/
def fallbackSizes : List ℕ := [1024, 4096, 16384, 65536]

/-- The runner calls `run` performs for a request (lines 122-172): every
argument is clamped at the call site — `n.max(64)` for smoke and for each
sweep size, `width.max(16)`/`height.max(16)` for the fluid paths,
`steps.max(1)`, `dt.max(1e-4)`, `fade.clamp(0.8, 1.0)`,
`jacobi_iters.clamp(5, 120)` for `fluid_step`. -/
def runCalls : Request → List RunnerCall
| .smoke n => [.smokeRun (max n 64)]
| .smokeSweep sizes =>
    (if sizes.isEmpty then fallbackSizes else sizes).map
      (fun n => .smokeRun (max n 64))
| .fluidInit w h dr imp => [.fluidInitRun (max w 16) (max h 16) dr imp]
| .fluidStep w h st dt fd j dr imp =>
    [.fluidStepRun (max w 16) (max h 16) (max st 1) (max dt 1e-4)
      (rustClampQ fd 0.8 1.0) (rustClampN j 5 120) dr imp]

/-- The clamp bounds the spec promises for the arguments of each runner call. -/
def callClamped : RunnerCall → Prop
| .smokeRun n => 64 ≤ n
| .fluidInitRun w h _ _ => 16 ≤ w ∧ 16 ≤ h
| .fluidStepRun w h st dt fd j _ _ =>
    16 ≤ w ∧ 16 ≤ h ∧ 1 ≤ st ∧ (1e-4 : ℚ) ≤ dt ∧ (0.8 : ℚ) ≤ fd ∧ fd ≤ 1
      ∧ 5 ≤ j ∧ j ≤ 120

/-! Smoke verifier statistics (`run_smoke`, lines 741-755). -/

/-- The error the verifier computes at index `i`: `|result[i] - (i + 1)|`. -/
def smokeErr (i : ℕ) (v : ℚ) : ℚ := |v - ((i : ℚ) + 1)|

/-- One iteration of the verifier loop: bump `mismatch_count` when the error
exceeds `1e-5`, track the running maximum error. -/
def smokeAccum (acc : ℕ × ℚ) (iv : ℕ × ℚ) : ℕ × ℚ :=
  ((if smokeErr iv.1 iv.2 > 1e-5 then acc.1 + 1 else acc.1),
    max acc.2 (smokeErr iv.1 iv.2))

/-- `(mismatch_count, max_abs_error)` computed by the loop over
`out.iter().enumerate()` starting from `(0, 0.0)`. -/
def smokeStats (out : List ℚ) : ℕ × ℚ := out.enum.foldl smokeAccum (0, 0)

/-- The verifier's verdict (line 755):
`ok = mismatch_count == 0 && max_abs_error <= 1e-5`. -/
def smokeOkFlag (out : List ℚ) : Bool :=
  (smokeStats out).1 == 0 && decide ((smokeStats out).2 ≤ (1e-5 : ℚ))

theorem smokeStats_foldl (l : List (ℕ × ℚ)) :
    ∀ (c0 : ℕ) (m0 : ℚ),
      l.foldl smokeAccum (c0, m0) =
        (c0 + (l.filter (fun iv => decide ((1e-5 : ℚ) < smokeErr iv.1 iv.2))).length,
          l.foldl (fun m iv => max m (smokeErr iv.1 iv.2)) m0) := by
  induction l with
  | nil => intro c0 m0; simp
  | cons a l ih =>
      intro c0 m0
      by_cases ha : (1e-5 : ℚ) < smokeErr a.1 a.2
      · simp [smokeAccum, ha, ih, Nat.add_assoc, Nat.add_comm 1]
      · simp [smokeAccum, ha, ih]

theorem smoke_foldl_max_le (l : List (ℕ × ℚ)) :
    ∀ (m0 b : ℚ), m0 ≤ b → (∀ iv ∈ l, smokeErr iv.1 iv.2 ≤ b) →
      l.foldl (fun m iv => max m (smokeErr iv.1 iv.2)) m0 ≤ b := by
  induction l with
  | nil => intro m0 b h0 _; simpa using h0
  | cons a l ih =>
      intro m0 b h0 h
      simp only [List.foldl_cons]
      refine ih _ b (max_le h0 (h a (by simp))) ?_
      intro iv hiv
      exact h iv (by simp [hiv])

/-! Error handling (`main` lines 102-111, `create_device` lines 177-192,
`map_wait` lines 614-622). -/

/-- The failure modes of `run`, with the messages attached by the source's
`context(...)` calls. -/
inductive RunError
| invalidJson
| noAdapter
| requestDeviceFailed
| mapChannelClosed
deriving DecidableEq, Repr

/-- The error description each failure carries (lines 119, 185, 190, 620). -/
def errorMessage : RunError → String
| .invalidJson => "invalid JSON request"
| .noAdapter => "no GPU adapter"
| .requestDeviceFailed => "request_device failed"
| .mapChannelClosed => "map_async channel closed"

/-- Environment outcomes `run` depends on: whether the JSON parsed, whether
an adapter and then a device were obtained, and whether the readback
`map_async` channel delivered a result. -/
structure RunEnv where
  parsed : Option Request
  adapterOk : Bool
  deviceOk : Bool
  mapChannelOk : Bool

/-- Outcome of `run` (lines 113-175): an early failure short-circuits with
`?`, otherwise the runner's response is produced and printed. The success
payload is abstract (`A`). -/
def runModel {A : Type} (env : RunEnv) (respond : Request → A) : Except RunError A :=
  match env.parsed with
  | none => .error .invalidJson
  | some req =>
      if !env.adapterOk then .error .noAdapter
      else if !env.deviceOk then .error .requestDeviceFailed
      else if !env.mapChannelOk then .error .mapChannelClosed
      else .ok (respond req)

/-- What the process emits for a request outcome. -/
structure Emitted (A : Type) where
  okFlag : Bool
  errorText : Option String
  payload : Option A
  exitCode : ℕ

/-- `main` (lines 102-111): on `Err(err)` it prints
`{"ok": false, "error": format!("{err:#}")}` and exits with status 1; on `Ok`
the success response (with `ok` set by the runner) was printed and the
process exits 0. -/
def mainEmit {A : Type} (r : Except RunError A) : Emitted A :=
  match r with
  | .error e => ⟨false, some (errorMessage e), none, 1⟩
  | .ok a => ⟨true, none, some a, 0⟩

/-! Steps-per-second statistic (line 571). -/

/-- The divisor used for `sps`: `elapsed.max(1e-6)`. -/
def spsDenom (elapsed : ℚ) : ℚ := max elapsed 1e-6

/-- `sps = (steps as f64) / elapsed.max(1e-6)` (line 571). -/
def spsOf (steps : ℕ) (elapsed : ℚ) : ℚ := (steps : ℚ) / spsDenom elapsed

/-! Claim theorems. -/

/-- C3: the host-side divergence statistics loop in `run_fluid_step` computes,
for every cell `(x, y)` with `x < width` and `y < height`, exactly the same
value as the GPU divergence kernel applied to the same velocity field:
`0.5 * ((v.x at clamped x+1 - v.x at clamped x-1) + (v.y at clamped y+1 -
v.y at clamped y-1))` with neighbour indices clamped to `[0, dim-1]`; the
Rust loop and the WGSL kernel agree as functions of the velocity field. -/
theorem host_divergence_matches_kernel (w h : ℕ) (vel : ℕ → ℚ × ℚ) (x y : ℕ)
    (hx : x < w) (hy : y < h) :
    hostDivergence w h vel x y = kernelDivergence w h vel x y := by
  simp only [hostDivergence, kernelDivergence, idx,
    cIdx_sub_one x w hx, cIdx_add_one x w hx, cIdx_self x w hx,
    cIdx_sub_one y h hy, cIdx_add_one y h hy, cIdx_self y h hy]

theorem host_divergence_matches_kernel_witness :
    ((1 : ℕ) < 3 ∧ (2 : ℕ) < 3)
    ∧ hostDivergence 3 3 (fun i => ((i : ℚ), (i : ℚ) * 2)) 1 2
        = kernelDivergence 3 3 (fun i => ((i : ℚ), (i : ℚ) * 2)) 1 2 :=
  ⟨⟨by decide, by decide⟩,
    host_divergence_matches_kernel 3 3 (fun i => ((i : ℚ), (i : ℚ) * 2)) 1 2
      (by decide) (by decide)⟩

/-- C4: for every cell `(x, y)` of a `width × height` grid, the init kernel
writes velocity `(-c.y, c.x) * impulse * exp(-30 * r * r)` and dye
`1 - r / max(dye_radius, 0.01)` if `r ≤ dye_radius` else 0, where
`uv = ((x, y) + 0.5) / (width, height)`, `c = uv - 0.5`, `r = |c|`; and the
whole init field is a deterministic function of
`(width, height, dye_radius, impulse)`: two runs with equal inputs produce
equal fields. -/
theorem init_kernel_matches_spec (expF sqrtF : ℚ → ℚ) (w h : ℕ) (dr imp : ℚ)
    (gx gy : ℕ) (hx : gx < w) (hy : gy < h) :
    initVelCell expF sqrtF w h imp gx gy = specInitVel expF sqrtF w h imp gx gy
    ∧ initDyeCell sqrtF w h dr gx gy = specInitDye sqrtF w h dr gx gy
    ∧ initField expF sqrtF w h dr imp = initField expF sqrtF w h dr imp := by
  have hr : (((gx : ℚ) + 0.5) / (w : ℚ) - 0.5) * (((gx : ℚ) + 0.5) / (w : ℚ) - 0.5)
        + (((gy : ℚ) + 0.5) / (h : ℚ) - 0.5) * (((gy : ℚ) + 0.5) / (h : ℚ) - 0.5)
      = (((gx : ℚ) + 0.5) / (w : ℚ) - 0.5) ^ 2
        + (((gy : ℚ) + 0.5) / (h : ℚ) - 0.5) ^ 2 := by ring
  refine ⟨?_, ?_, rfl⟩
  · simp only [initVelCell, specInitVel, hr]
    set r := sqrtF ((((gx : ℚ) + 0.5) / (w : ℚ) - 0.5) ^ 2
      + (((gy : ℚ) + 0.5) / (h : ℚ) - 0.5) ^ 2) with hrdef
    have he : (-30 : ℚ) * r * r = -(30 * r ^ 2) := by ring
    rw [he]
    simp only [Prod.mk.injEq]
    constructor <;> ring
  · simp only [initDyeCell, specInitDye, hr]

theorem init_kernel_matches_spec_witness :
    ((2 : ℕ) < 16 ∧ (3 : ℕ) < 16)
    ∧ (initVelCell id id 16 16 25 2 3 = specInitVel id id 16 16 25 2 3
        ∧ initDyeCell id 16 16 0.15 2 3 = specInitDye id 16 16 0.15 2 3
        ∧ initField id id 16 16 0.15 25 = initField id id 16 16 0.15 25) :=
  ⟨⟨by decide, by decide⟩,
    init_kernel_matches_spec id id 16 16 0.15 25 2 3 (by decide) (by decide)⟩

theorem rustClampQ_mem (x lo hi : ℚ) (hlohi : lo ≤ hi) :
    lo ≤ rustClampQ x lo hi ∧ rustClampQ x lo hi ≤ hi := by
  unfold rustClampQ
  split_ifs with h1 h2 <;> constructor <;> linarith

theorem rustClampN_mem (x lo hi : ℕ) (hlohi : lo ≤ hi) :
    lo ≤ rustClampN x lo hi ∧ rustClampN x lo hi ≤ hi := by
  unfold rustClampN
  split_ifs with h1 h2 <;> omega

/-- C5: every runner call made by `run` carries clamped parameters: width and
height at least 16 for `fluid_init`/`fluid_step`, `n` at least 64 for smoke
and for every size of a `smoke_sweep`, and for `fluid_step` additionally
`steps ≥ 1`, `dt ≥ 1e-4`, `fade ∈ [0.8, 1.0]`, `jacobi_iters ∈ [5, 120]` —
so every kernel executes with clamped parameters. -/
theorem request_params_clamped (req : Request) (call : RunnerCall)
    (hmem : call ∈ runCalls req) : callClamped call := by
  cases req with
  | smoke n =>
      have h1 : call = RunnerCall.smokeRun (max n 64) := by
        simpa [runCalls] using hmem
      subst h1
      simpa [callClamped] using le_max_right n 64
  | smokeSweep sizes =>
      have h2 : call ∈ (if sizes.isEmpty then fallbackSizes else sizes).map
          (fun n => RunnerCall.smokeRun (max n 64)) := hmem
      obtain ⟨n, -, rfl⟩ := List.mem_map.mp h2
      simpa [callClamped] using le_max_right n 64
  | fluidInit w h dr imp =>
      have h1 : call = RunnerCall.fluidInitRun (max w 16) (max h 16) dr imp := by
        simpa [runCalls] using hmem
      subst h1
      exact ⟨le_max_right w 16, le_max_right h 16⟩
  | fluidStep w h st dt fd j dr imp =>
      have h1 : call = RunnerCall.fluidStepRun (max w 16) (max h 16) (max st 1)
          (max dt 1e-4) (rustClampQ fd 0.8 1.0) (rustClampN j 5 120) dr imp := by
        simpa [runCalls] using hmem
      subst h1
      refine ⟨le_max_right w 16, le_max_right h 16, le_max_right st 1,
        le_max_right dt 1e-4, ?_, ?_, ?_, ?_⟩
      · exact (rustClampQ_mem fd 0.8 1.0 (by norm_num)).1
      · exact le_trans (rustClampQ_mem fd 0.8 1.0 (by norm_num)).2 (by norm_num)
      · exact (rustClampN_mem j 5 120 (by norm_num)).1
      · exact (rustClampN_mem j 5 120 (by norm_num)).2

theorem request_params_clamped_witness :
    RunnerCall.fluidStepRun 16 16 1 (1e-4) (0.8) 5 0 0
        ∈ runCalls (Request.fluidStep 0 0 0 0 0 0 0 0)
    ∧ callClamped (RunnerCall.fluidStepRun 16 16 1 (1e-4) (0.8) 5 0 0) := by
  have hm : RunnerCall.fluidStepRun 16 16 1 (1e-4) (0.8) 5 0 0
      ∈ runCalls (Request.fluidStep 0 0 0 0 0 0 0 0) := by
    simp [runCalls, rustClampQ, rustClampN]
    norm_num
  exact ⟨hm, request_params_clamped _ _ hm⟩

/-- C7: for every smoke result list, the verifier's `mismatch_count` is the
number of indices whose error `|result[i] - (i + 1)|` exceeds `1e-5`,
`max_abs_error` is the running maximum of those errors (from 0),
`ok = (mismatch_count == 0 && max_abs_error <= 1e-5)`, and
`mismatch_count = 0` holds if and only if `ok = true`. -/
theorem smoke_verifier_stats (out : List ℚ) :
    (smokeStats out).1 =
        (out.enum.filter (fun iv => decide ((1e-5 : ℚ) < smokeErr iv.1 iv.2))).length
    ∧ (smokeStats out).2 =
        out.enum.foldl (fun m iv => max m (smokeErr iv.1 iv.2)) 0
    ∧ (smokeOkFlag out = true ↔
        ((smokeStats out).1 = 0 ∧ (smokeStats out).2 ≤ (1e-5 : ℚ)))
    ∧ ((smokeStats out).1 = 0 ↔ smokeOkFlag out = true) := by
  have hfold := smokeStats_foldl out.enum 0 0
  have h1 : (smokeStats out).1 =
      (out.enum.filter (fun iv => decide ((1e-5 : ℚ) < smokeErr iv.1 iv.2))).length := by
    rw [smokeStats, hfold]
    simp
  have h2 : (smokeStats out).2 =
      out.enum.foldl (fun m iv => max m (smokeErr iv.1 iv.2)) 0 := by
    rw [smokeStats, hfold]
  have hok : smokeOkFlag out = true ↔
      ((smokeStats out).1 = 0 ∧ (smokeStats out).2 ≤ (1e-5 : ℚ)) := by
    simp [smokeOkFlag]
  refine ⟨h1, h2, hok, ?_, fun hoktrue => (hok.mp hoktrue).1⟩
  intro hzero
  refine hok.mpr ⟨hzero, ?_⟩
  rw [h1] at hzero
  have hnil := List.eq_nil_of_length_eq_zero hzero
  have hbound : ∀ iv ∈ out.enum, smokeErr iv.1 iv.2 ≤ (1e-5 : ℚ) := by
    intro iv hiv
    by_contra hlt
    have : iv ∈ out.enum.filter
        (fun iv => decide ((1e-5 : ℚ) < smokeErr iv.1 iv.2)) := by
      refine List.mem_filter.mpr ⟨hiv, ?_⟩
      simpa using lt_of_not_ge fun hge => hlt hge
    simp [hnil] at this
  rw [h2]
  exact smoke_foldl_max_le out.enum 0 (1e-5 : ℚ) (by norm_num) hbound

/-- C8: for every request whose execution fails (invalid JSON, no adapter, no
device, or a broken readback mapping channel), the emitted response carries
`ok = false` and the failure's error description string, no result payload is
emitted, and the process exits with non-zero status 1. -/
theorem failed_request_response {A : Type} (env : RunEnv) (respond : Request → A)
    (hfail : env.parsed = none ∨ env.adapterOk = false ∨ env.deviceOk = false
      ∨ env.mapChannelOk = false) :
    ∃ e : RunError,
      runModel env respond = Except.error e
      ∧ (mainEmit (runModel env respond)).okFlag = false
      ∧ (mainEmit (runModel env respond)).errorText = some (errorMessage e)
      ∧ (mainEmit (runModel env respond)).payload = none
      ∧ (mainEmit (runModel env respond)).exitCode = 1 := by
  obtain ⟨p, a, d, m⟩ := env
  have herr : ∃ e : RunError,
      runModel ⟨p, a, d, m⟩ respond = Except.error e := by
    cases p with
    | none => exact ⟨.invalidJson, rfl⟩
    | some req =>
        cases a with
        | false => exact ⟨.noAdapter, by simp [runModel]⟩
        | true =>
            cases d with
            | false => exact ⟨.requestDeviceFailed, by simp [runModel]⟩
            | true =>
                cases m with
                | false => exact ⟨.mapChannelClosed, by simp [runModel]⟩
                | true => simp at hfail
  obtain ⟨e, he⟩ := herr
  exact ⟨e, he, by rw [he]; rfl, by rw [he]; rfl, by rw [he]; rfl, by rw [he]; rfl⟩

theorem failed_request_response_witness :
    ((⟨none, true, true, true⟩ : RunEnv).parsed = none
      ∨ (⟨none, true, true, true⟩ : RunEnv).adapterOk = false
      ∨ (⟨none, true, true, true⟩ : RunEnv).deviceOk = false
      ∨ (⟨none, true, true, true⟩ : RunEnv).mapChannelOk = false)
    ∧ ∃ e : RunError,
        runModel (A := ℕ) ⟨none, true, true, true⟩ (fun _ => 0) = Except.error e
        ∧ (mainEmit (runModel ⟨none, true, true, true⟩ (fun _ => (0 : ℕ)))).okFlag = false
        ∧ (mainEmit (runModel ⟨none, true, true, true⟩ (fun _ => (0 : ℕ)))).errorText
            = some (errorMessage e)
        ∧ (mainEmit (runModel ⟨none, true, true, true⟩ (fun _ => (0 : ℕ)))).payload = none
        ∧ (mainEmit (runModel ⟨none, true, true, true⟩ (fun _ => (0 : ℕ)))).exitCode = 1 :=
  ⟨Or.inl rfl,
    failed_request_response ⟨none, true, true, true⟩ (fun _ => (0 : ℕ)) (Or.inl rfl)⟩

/-- C10: the steps-per-second statistic divides `steps` by
`max(elapsed_seconds, 1e-6)`, which is strictly positive for every elapsed
value (even zero), so `sps` is a genuine division by a non-zero number. -/
theorem sps_division_safe (steps : ℕ) (elapsed : ℚ) :
    0 < spsDenom elapsed ∧ spsDenom elapsed ≠ 0
      ∧ spsOf steps elapsed * spsDenom elapsed = (steps : ℚ) := by
  have hpos : 0 < spsDenom elapsed :=
    lt_of_lt_of_le (by norm_num) (le_max_right elapsed (1e-6 : ℚ))
  refine ⟨hpos, ne_of_gt hpos, ?_⟩
  rw [spsOf, div_mul_cancel₀]
  exact ne_of_gt hpos

theorem exec_cons {F : Type} (K : Kernels F) (c : Cmd) (l : List Cmd) (s : Store F) :
    exec K (c :: l) s = exec K l (execCmd K s c) := rfl

theorem stepCommands_split (n : ℕ) :
    stepCommands n =
      [Cmd.clearBuffer Buf.pressureA, Cmd.clearBuffer Buf.pressureB,
        Cmd.dispatch bg_advect_vel, Cmd.dispatch bg_div]
      ++ (jacobiCmds n ++
        [Cmd.dispatch (if n % 2 = 0 then bg_project_from_a else bg_project_from_b),
          Cmd.dispatch bg_advect_dye, Cmd.dispatch bg_fade]) := by
  simp [stepCommands, clearCmds]

/-- C1: in `run_fluid_step`, for every clamped `jacobi_iters` value `n` in
`[5, 120]`, Jacobi iteration `i` (0-indexed) reads pressure buffer A and
writes B when `i` is even, and reads B / writes A when `i` is odd; the buffer
holding the final pressure after all `n` iterations is A when `n` is even and
B when `n` is odd; and the projection dispatch reads exactly that buffer. -/
theorem jacobi_pingpong_parity (n : ℕ) (h5 : 5 ≤ n) (h120 : n ≤ 120) :
    (∀ i, i < n → (stepCommands n)[4 + i]? =
        some (Cmd.dispatch (Dispatch.jacobi
          (if i % 2 = 0 then Buf.pressureA else Buf.pressureB) Buf.div
          (if i % 2 = 0 then Buf.pressureB else Buf.pressureA))))
    ∧ (stepCommands n)[4 + n]? =
        some (Cmd.dispatch (Dispatch.project Buf.velB
          (if n % 2 = 0 then Buf.pressureA else Buf.pressureB) Buf.velA))
    ∧ (∀ (F : Type) (K : Kernels F) (s : Store F),
        s .pressureA = K.zero → s .pressureB = K.zero →
        exec K (jacobiCmds n) s (if n % 2 = 0 then Buf.pressureA else Buf.pressureB)
          = jacobiN K (s .div) n) := by
  refine ⟨?_, ?_, ?_⟩
  · intro i hi
    rw [stepCommands_split, List.getElem?_append]
    simp only [List.length_cons, List.length_nil]
    rw [if_neg (by omega)]
    have h4 : 4 + i - 4 = i := by omega
    rw [h4, List.getElem?_append]
    have hlen : i < (jacobiCmds n).length := by
      simpa [jacobiCmds] using hi
    rw [if_pos hlen]
    have : (jacobiCmds n)[i]? =
        some (Cmd.dispatch (if i % 2 = 0 then bg_jacobi_ab else bg_jacobi_ba)) := by
      simp [jacobiCmds, hi]
    rw [this]
    by_cases hp : i % 2 = 0 <;> simp [hp, bg_jacobi_ab, bg_jacobi_ba]
  · rw [stepCommands_split, List.getElem?_append]
    simp only [List.length_cons, List.length_nil]
    rw [if_neg (by omega)]
    have h4 : 4 + n - 4 = n := by omega
    rw [h4, List.getElem?_append]
    have hlen : (jacobiCmds n).length = n := by simp [jacobiCmds]
    rw [if_neg (by omega), hlen, Nat.sub_self]
    by_cases hp : n % 2 = 0 <;> simp [hp, bg_project_from_a, bg_project_from_b]
  · intro F K s hA hB
    rw [exec_jacobiCmds K s hA hB n]
    by_cases hp : n % 2 = 0
    · have hsub : n - n % 2 = n := by omega
      simp [hp, hsub]
    · have hsub : n - (1 - n % 2) = n := by omega
      simp [hp, hsub]

theorem jacobi_pingpong_parity_witness :
    ((5 : ℕ) ≤ 30 ∧ (30 : ℕ) ≤ 120)
    ∧ (stepCommands 30)[34]? =
        some (Cmd.dispatch (Dispatch.project Buf.velB Buf.pressureA Buf.velA)) := by
  refine ⟨⟨by decide, by decide⟩, ?_⟩
  have h := (jacobi_pingpong_parity 30 (by decide) (by decide)).2.1
  simpa using h

/-- C2: after any completed fluid step (every `width, height ≥ 16`, every
`steps ≥ 1`, every edge cell with `x = 0`, `x = width-1`, `y = 0` or
`y = height-1`), the velocity stored in `vel_a` at that edge cell is the zero
vector: the projection kernel — the last kernel writing velocity in a step —
writes `(0, 0)` to every edge cell, for every instantiation of the other
kernels. -/
theorem edge_velocity_zero (w h steps n : ℕ) (hw : 16 ≤ w) (hh : 16 ≤ h)
    (hs : 1 ≤ steps)
    (z iv idy : ℕ → ℚ × ℚ)
    (advV dvg fdK : (ℕ → ℚ × ℚ) → (ℕ → ℚ × ℚ))
    (jacK advD : (ℕ → ℚ × ℚ) → (ℕ → ℚ × ℚ) → (ℕ → ℚ × ℚ))
    (s : Store (ℕ → ℚ × ℚ)) (x y : ℕ) (hx : x < w) (hy : y < h)
    (hedge : x = 0 ∨ x = w - 1 ∨ y = 0 ∨ y = h - 1) :
    (exec ⟨z, iv, idy, advV, dvg, jacK, projectField w h, advD, fdK⟩
        (fluidProgram steps n) s) .velA (idx w x y) = (0, 0) := by
  obtain ⟨m, rfl⟩ : ∃ m, steps = m + 1 := ⟨steps - 1, by omega⟩
  set K : Kernels (ℕ → ℚ × ℚ) :=
    ⟨z, iv, idy, advV, dvg, jacK, projectField w h, advD, fdK⟩ with hK
  have h0 : exec K (fluidProgram (m + 1) n) s =
      exec K (fluidStepCommands (m + 1) n) (execCmd K s (Cmd.dispatch bg_init)) := rfl
  rw [h0, exec_fluidStepCommands_succ]
  set s1 := execCmd K s (Cmd.dispatch bg_init)
  set vd := (refStep K n)^[m] (s1 .velA, s1 .dyeA)
  have hvelA : (stepStore K n vd.1 vd.2) .velA =
      projectField w h (K.advectVel vd.1)
        (jacobiN K (K.divergence (K.advectVel vd.1)) n) := rfl
  rw [hvelA]
  have hw0 : 0 < w := by omega
  have hmod : idx w x y % w = x := by
    rw [idx, Nat.mul_comm y w, Nat.mul_add_mod, Nat.mod_eq_of_lt hx]
  have hdiv : idx w x y / w = y := by
    rw [idx, Nat.mul_comm y w, Nat.mul_add_div hw0, Nat.div_eq_of_lt hx]
    omega
  rw [projectField, hmod, hdiv]
  apply projectCell_edge
  rcases hedge with h1 | h1 | h1 | h1
  · exact Or.inl h1
  · exact Or.inr (Or.inr (Or.inl h1))
  · exact Or.inr (Or.inl h1)
  · exact Or.inr (Or.inr (Or.inr h1))

theorem edge_velocity_zero_witness :
    ((16 : ℕ) ≤ 16 ∧ (1 : ℕ) ≤ 1 ∧ (0 : ℕ) < 16 ∧ (3 : ℕ) < 16)
    ∧ (exec ⟨(fun _ => (0, 0)), (fun _ => (0, 0)), (fun _ => (0, 0)),
          id, id, (fun p _ => p), projectField 16 16, (fun p _ => p), id⟩
        (fluidProgram 1 5) (fun _ _ => (0, 0))) .velA (idx 16 0 3) = (0, 0) :=
  ⟨⟨by decide, by decide, by decide, by decide⟩,
    edge_velocity_zero 16 16 1 5 (by decide) (by decide) (by decide)
      (fun _ => (0, 0)) (fun _ => (0, 0)) (fun _ => (0, 0)) id id id
      (fun p _ => p) (fun p _ => p) (fun _ _ => (0, 0)) 0 3
      (by decide) (by decide) (Or.inl rfl)⟩

/-- C6: in every iteration `k` of the fluid step loop, both pressure buffers
are cleared before any dispatch of that step is encoded (the step's command
block begins with the two clears and everything after them is a dispatch),
and consequently the outcome of a step is independent of whatever pressure a
previous step left behind: it depends only on the incoming `vel_a` and
`dye_a`. -/
theorem pressure_cleared_each_step (steps n k : ℕ) (hk : k < steps) :
    ((fluidStepCommands steps n).drop (k * (stepCommands n).length)).take 2
        = [Cmd.clearBuffer Buf.pressureA, Cmd.clearBuffer Buf.pressureB]
    ∧ (∀ c ∈ (stepCommands n).drop 2, ∃ d, c = Cmd.dispatch d)
    ∧ (∀ (F : Type) (K : Kernels F) (s s2 : Store F),
        s .velA = s2 .velA → s .dyeA = s2 .dyeA →
        ∀ b, exec K (stepCommands n) s b = exec K (stepCommands n) s2 b) := by
  refine ⟨?_, ?_, ?_⟩
  · rw [fluidStepCommands_drop n k steps hk]
    obtain ⟨t, ht⟩ : ∃ t, steps - k = t + 1 := ⟨steps - k - 1, by omega⟩
    rw [ht]
    have hsplit : fluidStepCommands (t + 1) n =
        stepCommands n ++ fluidStepCommands t n := by
      simp [fluidStepCommands, repeatCmds]
    rw [hsplit, stepCommands_split]
    rfl
  · intro c hc
    have hdrop : (stepCommands n).drop 2 =
        [Cmd.dispatch bg_advect_vel, Cmd.dispatch bg_div]
        ++ (jacobiCmds n ++
          [Cmd.dispatch (if n % 2 = 0 then bg_project_from_a else bg_project_from_b),
            Cmd.dispatch bg_advect_dye, Cmd.dispatch bg_fade]) := by
      rw [stepCommands_split]
      rfl
    rw [hdrop] at hc
    simp only [List.mem_append, List.mem_cons, List.not_mem_nil, or_false] at hc
    rcases hc with (h1 | h1) | (h1 | (h1 | h1 | h1))
    · exact ⟨bg_advect_vel, h1⟩
    · exact ⟨bg_div, h1⟩
    · obtain ⟨i, -, rfl⟩ := List.mem_map.mp h1
      exact ⟨_, rfl⟩
    · exact ⟨_, h1⟩
    · exact ⟨bg_advect_dye, h1⟩
    · exact ⟨bg_fade, h1⟩
  · intro F K s s2 h1 h2 b
    rw [exec_stepCommands, exec_stepCommands, h1, h2]

theorem pressure_cleared_each_step_witness :
    (0 : ℕ) < 1
    ∧ ((fluidStepCommands 1 5).drop (0 * (stepCommands 5).length)).take 2
        = [Cmd.clearBuffer Buf.pressureA, Cmd.clearBuffer Buf.pressureB] :=
  ⟨by decide, (pressure_cleared_each_step 1 5 0 (by decide)).1⟩

/-- C9: the fluid step body preserves the buffer-role invariant: `vel_a`
holds the current velocity and `dye_a` the current dye at the start and end
of every step — advection reads `vel_a` into `vel_b`, projection writes back
into `vel_a`, dye advection reads `dye_a` into `dye_b`, fade writes back into
`dye_a` — so the fixed pre-built bind groups are correct for every step, and
the final readback from `vel_a` and `dye_a` returns exactly the reference
pipeline's state after the last step. -/
theorem buffer_roles_and_readback (F : Type) (K : Kernels F) (s : Store F)
    (steps n : ℕ) :
    bg_advect_vel = Dispatch.advectVel Buf.velA Buf.velB
    ∧ bg_project_from_a = Dispatch.project Buf.velB Buf.pressureA Buf.velA
    ∧ bg_project_from_b = Dispatch.project Buf.velB Buf.pressureB Buf.velA
    ∧ bg_advect_dye = Dispatch.advectDye Buf.velA Buf.dyeA Buf.dyeB
    ∧ bg_fade = Dispatch.fade Buf.dyeB Buf.dyeA
    ∧ readbackSources = (Buf.velA, Buf.dyeA)
    ∧ (∀ k, (exec K (fluidStepCommands k n) s) .velA
          = ((refStep K n)^[k] (s .velA, s .dyeA)).1
        ∧ (exec K (fluidStepCommands k n) s) .dyeA
          = ((refStep K n)^[k] (s .velA, s .dyeA)).2)
    ∧ (exec K (fluidProgram steps n) s) readbackSources.1
        = ((refStep K n)^[steps] (K.initVel, K.initDye)).1
    ∧ (exec K (fluidProgram steps n) s) readbackSources.2
        = ((refStep K n)^[steps] (K.initVel, K.initDye)).2 :=
  ⟨rfl, rfl, rfl, rfl, rfl, rfl,
    fun k => exec_fluidStepCommands K n k s,
    (exec_fluidProgram K n steps s).1,
    (exec_fluidProgram K n steps s).2⟩

end Sidecar
